import Mathlib

/-!
Verification of the dynamic-array container (`hw06-vector-h3ic/vector.h`) and the
sudoku checker/solver (`hw01-sudoku-h3ic`) against their natural-language
specification.  The C++ sources are shallowly embedded: the container state is a
structure mirroring the three data members, each member function becomes a Lean
function on that structure, and the solver's grids become functions on `Fin 9`.
-/

set_option maxHeartbeats 1000000
set_option linter.constructorNameAsVariable false

/-! ## Dynamic array: embedding of `vector.h` -/

/-- Embedding of the capacity-search loop in the sized constructor
(`vector.h` lines 13-16): `int power = 1; while (power < elem_num) power *= 2;`.
The extra `power = 0` guard only serves termination of the Lean recursion; every
call in this development starts from `power = 1`, matching the source, and never
reaches it. -/
def pow2Loop (elem_num power : Nat) : Nat :=
  if h0 : power = 0 then 0
  else if hlt : power < elem_num then pow2Loop elem_num (power * 2)
  else power
termination_by elem_num - power
decreasing_by omega

/-- State of `vector_t<T>` (`vector.h` lines 51-54): `size_t capacity_{0}; T *arr_{nullptr};
size_t pos_{0};`.  The buffer is `none` for `nullptr`, otherwise the list of the
allocated slots. -/
structure vector_t (α : Type) where
  capacity_ : Nat
  arr_ : Option (List α)
  pos_ : Nat

namespace vector_t

/-- Default constructor `vector_t() = default` with the member initializers
`capacity_{0}`, `arr_{nullptr}`, `pos_{0}`. -/
def mkDefault (α : Type) : vector_t α := ⟨0, none, 0⟩

/-- Sized constructor `vector_t(size_t elem_num, const T & = T())` (`vector.h` lines 7-21).
Note the source: for `elem_num != 0` it sets `capacity_ = power`, `pos_ = 0` (line 18)
and allocates `arr_ = new T[capacity_]`, which default-constructs the slots; the fill
value `v` is never used and `pos_` is left at `0`. -/
def sized {α : Type} [Inhabited α] (elem_num : Nat) (v : α) : vector_t α :=
  if elem_num = 0 then ⟨0, none, 0⟩
  else
    let power := pow2Loop elem_num 1
    ⟨power, some (List.replicate power default), 0⟩

/-- One `std::swap(pos_, other.pos_)` (each of `vector.h` lines 24-26). -/
def swapPosOnce {α : Type} (a other : vector_t α) : vector_t α × vector_t α :=
  ({ a with pos_ := other.pos_ }, { other with pos_ := a.pos_ })

/-- Member `swap` (`vector.h` lines 23-27): it performs `std::swap(pos_, other.pos_)`
three times in a row and never touches `capacity_` or `arr_`. -/
def swap {α : Type} (a other : vector_t α) : vector_t α × vector_t α :=
  let s1 := swapPosOnce a other
  let s2 := swapPosOnce s1.1 s1.2
  swapPosOnce s2.1 s2.2

/-- Copy constructor (`vector.h` line 29): `vector_t(const vector_t &other) : pos_{other.pos_} {}`.
Only `pos_` is copied; `capacity_` and `arr_` keep their member initializers `0` and
`nullptr`. -/
def copy {α : Type} (other : vector_t α) : vector_t α :=
  { capacity_ := 0, arr_ := none, pos_ := other.pos_ }

/-- Copy assignment (`vector.h` lines 31-35): copy-and-swap, `vector_t tmp(other); swap(tmp);`.
The result is the state of `*this` after the call. -/
def assign {α : Type} (self other : vector_t α) : vector_t α :=
  (swap self (copy other)).1

/-- Accessor `size()` (`vector.h` line 48): returns `pos_`. -/
def size {α : Type} (v : vector_t α) : Nat := v.pos_

/-- Accessor `capacity()` (`vector.h` line 49): returns `capacity_`. -/
def capacity {α : Type} (v : vector_t α) : Nat := v.capacity_

/-- Accessor `empty()` (`vector.h` line 47): returns `(arr_ == nullptr)`. -/
def isEmpty {α : Type} (v : vector_t α) : Bool := v.arr_.isNone

/-- Element write through `operator[]`/`front()`/`back()`/`data()` (`vector.h` lines 39-46):
stores `x` into slot `i` of the buffer; size and capacity are untouched. -/
def setElem {α : Type} (v : vector_t α) (i : Nat) (x : α) : vector_t α :=
  { v with arr_ := v.arr_.map fun l => l.set i x }

end vector_t

/-- States reachable through the public interface of `vector_t` as it stands in
`vector.h`: default construction, sized construction, copy construction, copy
assignment, `swap` (either side), and element writes through the raw accessors —
the only mutators the header defines. -/
inductive Reachable (α : Type) [Inhabited α] : vector_t α → Prop
  | init : Reachable α (vector_t.mkDefault α)
  | sized (n : Nat) (v : α) : Reachable α (vector_t.sized n v)
  | copy {a : vector_t α} : Reachable α a → Reachable α (vector_t.copy a)
  | assign {a b : vector_t α} : Reachable α a → Reachable α b →
      Reachable α (vector_t.assign a b)
  | swapFst {a b : vector_t α} : Reachable α a → Reachable α b →
      Reachable α (vector_t.swap a b).1
  | swapSnd {a b : vector_t α} : Reachable α a → Reachable α b →
      Reachable α (vector_t.swap a b).2
  | write {a : vector_t α} (i : Nat) (x : α) : Reachable α a →
      Reachable α (vector_t.setElem a i x)

theorem pow2Loop_isPow2 (n : Nat) :
    ∀ d power, n - power = d → (∃ k, power = 2 ^ k) → ∃ m, pow2Loop n power = 2 ^ m := by
  intro d
  induction d using Nat.strong_induction_on with
  | _ d ih =>
    rintro power hd ⟨k, rfl⟩
    rw [pow2Loop]
    have hpos : 0 < 2 ^ k := Nat.pos_pow_of_pos k (by omega)
    rw [dif_neg (by omega)]
    by_cases hlt : 2 ^ k < n
    · rw [dif_pos hlt]
      have h2 : 2 ^ k * 2 = 2 ^ (k + 1) := by rw [Nat.pow_succ]
      rw [h2]
      exact ih (n - 2 ^ (k + 1)) (by rw [← hd]; rw [Nat.pow_succ]; omega)
        (2 ^ (k + 1)) rfl ⟨k + 1, rfl⟩
    · rw [dif_neg hlt]
      exact ⟨k, rfl⟩

/-- Invariant of all reachable `vector_t` states: the logical size (`pos_`) is always
`0`, and the capacity is `0` or an exact power of two. -/
theorem reachable_inv {α : Type} [Inhabited α] {v : vector_t α} (h : Reachable α v) :
    v.pos_ = 0 ∧ (v.capacity_ = 0 ∨ ∃ k, v.capacity_ = 2 ^ k) := by
  induction h with
  | init => exact ⟨rfl, Or.inl rfl⟩
  | sized n x =>
    unfold vector_t.sized
    by_cases hn : n = 0
    · rw [if_pos hn]; exact ⟨rfl, Or.inl rfl⟩
    · rw [if_neg hn]
      refine ⟨rfl, Or.inr ?_⟩
      exact pow2Loop_isPow2 n (n - 1) 1 rfl ⟨0, rfl⟩
  | copy _ ih => exact ⟨ih.1, Or.inl rfl⟩
  | assign _ _ iha ihb =>
    exact ⟨ihb.1, iha.2⟩
  | swapFst _ _ iha ihb => exact ⟨ihb.1, iha.2⟩
  | swapSnd _ _ iha ihb => exact ⟨iha.1, ihb.2⟩
  | write i x _ ih => exact ⟨ih.1, ih.2⟩

/-- C1: after any sequence of the container's public operations (default construction,
sized construction, copy construction, copy assignment, swap, and the element-write
mutators the header exposes), the capacity equals 0 or an exact power of two, and the
size is at most the capacity. -/
theorem c1_capacity_invariant {α : Type} [Inhabited α] (v : vector_t α)
    (h : Reachable α v) :
    (vector_t.capacity v = 0 ∨ ∃ k, vector_t.capacity v = 2 ^ k) ∧
      vector_t.size v ≤ vector_t.capacity v := by
  obtain ⟨hpos, hcap⟩ := reachable_inv h
  exact ⟨hcap, by simp [vector_t.size, vector_t.capacity, hpos]⟩

/-- Witness for C1 at the concrete reachable state `vector_t<std::string>(10, "abacaba")`. -/
theorem c1_capacity_invariant_witness :
    (vector_t.capacity (vector_t.sized 10 "abacaba") = 0 ∨
        ∃ k, vector_t.capacity (vector_t.sized 10 "abacaba") = 2 ^ k) ∧
      vector_t.size (vector_t.sized 10 "abacaba") ≤
        vector_t.capacity (vector_t.sized 10 "abacaba") :=
  c1_capacity_invariant _ (Reachable.sized 10 "abacaba")

theorem pow2Loop_ten : pow2Loop 10 1 = 16 := by
  rw [pow2Loop]; norm_num
  rw [pow2Loop]; norm_num
  rw [pow2Loop]; norm_num
  rw [pow2Loop]; norm_num
  rw [pow2Loop]; norm_num

/-- C2: evaluation of the sized constructor at the test's input (count 10, value
"abacaba", `main.cpp` TEST(Vector, ValueConstructor)).  The source sets `pos_ = 0`
(`vector.h` line 18) instead of `elem_num`, so the constructed vector has size 0,
not 10 — only the capacity matches the claimed 16. -/
theorem c2_sized_ctor_eval :
    vector_t.size (vector_t.sized 10 "abacaba") = 0 ∧
      vector_t.capacity (vector_t.sized 10 "abacaba") = 16 := by
  constructor
  · rfl
  · show (vector_t.sized 10 "abacaba").capacity_ = 16
    unfold vector_t.sized
    rw [if_neg (by norm_num)]
    exact pow2Loop_ten

/-- C3: evaluation of the copy constructor on a source container of size 7 and
capacity 16 (the shape built in `main.cpp` TEST(Vector, CopyConstructor)).  The copy
keeps the source's size but has capacity 0 and no buffer — it is not element-wise
equal to the source and its capacity is not the smallest power of two ≥ 7. -/
theorem c3_copy_ctor_eval :
    vector_t.capacity
        (vector_t.copy (⟨16, some (List.replicate 16 "abacaba"), 7⟩ : vector_t String)) = 0 ∧
      (vector_t.copy (⟨16, some (List.replicate 16 "abacaba"), 7⟩ : vector_t String)).arr_
          = none ∧
      vector_t.size
        (vector_t.copy (⟨16, some (List.replicate 16 "abacaba"), 7⟩ : vector_t String)) = 7 :=
  ⟨rfl, rfl, rfl⟩

/-- C4: evaluation of `swap` on the containers of `main.cpp` TEST(Vector, SwapNonEmpty)
(`a` of size 10 / capacity 16, `b` of size 5 / capacity 8).  The source swaps `pos_`
three times and never touches `capacity_` or `arr_`, so only the sizes are exchanged:
`a` keeps capacity 16 (the test expects 8) and `b` keeps capacity 8 (the test
expects 16), and the buffers are not exchanged. -/
theorem c4_swap_eval :
    (vector_t.swap (⟨16, some (List.replicate 16 (10 : Nat)), 10⟩ : vector_t Nat)
        ⟨8, some (List.replicate 8 5), 5⟩).1.capacity_ = 16 ∧
      (vector_t.swap (⟨16, some (List.replicate 16 (10 : Nat)), 10⟩ : vector_t Nat)
        ⟨8, some (List.replicate 8 5), 5⟩).2.capacity_ = 8 ∧
      (vector_t.swap (⟨16, some (List.replicate 16 (10 : Nat)), 10⟩ : vector_t Nat)
        ⟨8, some (List.replicate 8 5), 5⟩).1.arr_ = some (List.replicate 16 10) ∧
      (vector_t.swap (⟨16, some (List.replicate 16 (10 : Nat)), 10⟩ : vector_t Nat)
        ⟨8, some (List.replicate 8 5), 5⟩).1.pos_ = 5 ∧
      (vector_t.swap (⟨16, some (List.replicate 16 (10 : Nat)), 10⟩ : vector_t Nat)
        ⟨8, some (List.replicate 8 5), 5⟩).2.pos_ = 10 :=
  ⟨rfl, rfl, rfl, rfl, rfl⟩

/-- C6: self-assignment `v = v` leaves the container observably unchanged — same size,
same capacity, and the very same buffer contents.  The copy-and-swap in
`operator=` ends up writing `v`'s own `pos_` back into `v` and touching nothing else. -/
theorem c6_self_assignment (α : Type) (v : vector_t α) :
    vector_t.size (vector_t.assign v v) = vector_t.size v ∧
      vector_t.capacity (vector_t.assign v v) = vector_t.capacity v ∧
      (vector_t.assign v v).arr_ = v.arr_ :=
  ⟨rfl, rfl, rfl⟩

/-- C7: evaluation of `empty()` on `vector_t<std::string>(10, "abacaba")`.  The source
implements `empty()` as `arr_ == nullptr` (`vector.h` line 47); this state has an
allocated buffer but size 0, so `size() == 0` holds while `empty()` returns false —
the claimed equivalence fails on the code. -/
theorem c7_empty_eval :
    vector_t.isEmpty (vector_t.sized 10 "abacaba") = false ∧
      vector_t.size (vector_t.sized 10 "abacaba") = 0 := by
  constructor
  · show ((vector_t.sized 10 "abacaba").arr_).isNone = false
    unfold vector_t.sized
    rw [if_neg (by norm_num)]
    rfl
  · rfl

/-! ## Dynamic array: spec-modelled `push_back` (C5)

`main.cpp` TEST(Vector, Capacity) calls `push_back`, but `vector.h` as it stands
does not define it (nor any other growing mutator); only its callers exist in the
repository.  The growth behaviour is therefore modelled from the spec. -/

/-- Modelled from the spec: the missing `push_back` needs the capacity policy
"reallocate to the smallest power of two ≥ the new required size"; the smallest
power of two ≥ `n` (for `n ≥ 1`) is computed by the same doubling search the
sized constructor uses. -/
def specNextPow2 (n : Nat) : Nat := pow2Loop n 1

/-- Modelled from the spec: observable state of the container for the missing
mutators — the live elements and the capacity. -/
structure SpecVector (α : Type) where
  elems : List α
  capacity : Nat

/-- Modelled from the spec: logical size is the number of live elements. -/
def SpecVector.size {α : Type} (v : SpecVector α) : Nat := v.elems.length

/-- Modelled from the spec: `push_back(v)` appends at `size`, `size += 1`, and grows
iff the new size would exceed the current capacity, in which case the new capacity
is the smallest power of two ≥ the new size. -/
def SpecVector.push_back {α : Type} (v : SpecVector α) (x : α) : SpecVector α :=
  { elems := v.elems ++ [x]
    capacity := if v.capacity < v.size + 1 then specNextPow2 (v.size + 1) else v.capacity }

/-- Modelled from the spec: a default-constructed container is empty with capacity 0. -/
def SpecVector.empty (α : Type) : SpecVector α := ⟨[], 0⟩

/-- State after pushing the values `0, 1, ..., n-1` one at a time from empty. -/
def specPushN (n : Nat) : SpecVector Nat :=
  (List.range n).foldl (fun v i => v.push_back i) (SpecVector.empty Nat)

theorem pow2Loop_one : pow2Loop 1 1 = 1 := by
  rw [pow2Loop]; norm_num

theorem pow2Loop_two : pow2Loop 2 1 = 2 := by
  rw [pow2Loop]; norm_num
  rw [pow2Loop]; norm_num

theorem pow2Loop_three : pow2Loop 3 1 = 4 := by
  rw [pow2Loop]; norm_num
  rw [pow2Loop]; norm_num
  rw [pow2Loop]; norm_num

theorem pow2Loop_four : pow2Loop 4 1 = 4 := by
  rw [pow2Loop]; norm_num
  rw [pow2Loop]; norm_num
  rw [pow2Loop]; norm_num

theorem pow2Loop_five : pow2Loop 5 1 = 8 := by
  rw [pow2Loop]; norm_num
  rw [pow2Loop]; norm_num
  rw [pow2Loop]; norm_num
  rw [pow2Loop]; norm_num

/-- C5: from a default-constructed container, a single `push_back` grows the capacity
to 1, the capacities observed while pushing 5 elements one at a time are
1, 2, 4, 4, 8, and in general a push that makes the size exceed the prior capacity
lands on the smallest power of two ≥ the new size. -/
theorem c5_push_back_capacities :
    (specPushN 1).capacity = 1 ∧ (specPushN 2).capacity = 2 ∧
      (specPushN 3).capacity = 4 ∧ (specPushN 4).capacity = 4 ∧
      (specPushN 5).capacity = 8 ∧
      ∀ (v : SpecVector Nat) (x : Nat), v.capacity < v.size + 1 →
        (v.push_back x).capacity = specNextPow2 (v.size + 1) := by
  have h1 : (specPushN 1).capacity = 1 := by
    simp [specPushN, SpecVector.push_back, SpecVector.empty, SpecVector.size,
      List.range_succ, specNextPow2, pow2Loop_one]
  have e1 : specPushN 1 = ⟨[0], 1⟩ := by
    simp [specPushN, SpecVector.push_back, SpecVector.empty, SpecVector.size,
      List.range_succ, specNextPow2, pow2Loop_one]
  have step : ∀ n, specPushN (n + 1) = (specPushN n).push_back n := by
    intro n
    simp [specPushN, List.range_succ]
  have e2 : specPushN 2 = ⟨[0, 1], 2⟩ := by
    rw [step 1, e1]
    simp [SpecVector.push_back, SpecVector.size, specNextPow2, pow2Loop_two]
  have e3 : specPushN 3 = ⟨[0, 1, 2], 4⟩ := by
    rw [step 2, e2]
    simp [SpecVector.push_back, SpecVector.size, specNextPow2, pow2Loop_three]
  have e4 : specPushN 4 = ⟨[0, 1, 2, 3], 4⟩ := by
    rw [step 3, e3]
    simp [SpecVector.push_back, SpecVector.size, specNextPow2, pow2Loop_four]
  have e5 : specPushN 5 = ⟨[0, 1, 2, 3, 4], 8⟩ := by
    rw [step 4, e4]
    simp [SpecVector.push_back, SpecVector.size, specNextPow2, pow2Loop_five]
  refine ⟨h1, by rw [e2], by rw [e3], by rw [e4], by rw [e5], ?_⟩
  intro v x hlt
  simp [SpecVector.push_back, if_pos hlt]

/-- Witness for C5's growth-law conjunct at a concrete push exceeding the capacity. -/
theorem c5_push_back_capacities_witness :
    (SpecVector.empty Nat).capacity < (SpecVector.empty Nat).size + 1 ∧
      ((SpecVector.empty Nat).push_back 7).capacity =
        specNextPow2 ((SpecVector.empty Nat).size + 1) :=
  ⟨by decide, c5_push_back_capacities.2.2.2.2.2 (SpecVector.empty Nat) 7 (by decide)⟩

/-! ## Sudoku: embedding of `hw01-sudoku-h3ic` -/

/-- Grid size constant `FIELD_SIZE` of the sudoku headers. -/
def FIELD_SIZE : Nat := 9

/-- Cell coordinates of a 9×9 grid. -/
abbrev Pos := Fin 9 × Fin 9

/-- A 9×9 field of small integers, 0 marking an empty cell (the
`std::vector<std::vector<int>>` the sudoku functions consume). -/
abbrev Grid := Fin 9 → Fin 9 → Nat

/-- Two cells lie in the same 3×3 block (the block of a cell has its upper-left
corner at `(row - row % 3, col - col % 3)`, i.e. same `row / 3` and `col / 3`). -/
abbrev sameBlock (p q : Pos) : Prop :=
  p.1.val / 3 = q.1.val / 3 ∧ p.2.val / 3 = q.2.val / 3

/-- Two distinct-or-equal cells share a row, a column, or a 3×3 block. -/
abbrev sameUnit (p q : Pos) : Prop :=
  p.1 = q.1 ∨ p.2 = q.2 ∨ sameBlock p q

/-- A candidate filled grid: each cell holds a digit, encoded as `Fin 9`; the digit
of cell `p` is `(c p.1 p.2).val + 1`, which is automatically in the range 1..9. -/
abbrev Completion := Fin 9 → Fin 9 → Fin 9

/-- Stated from the spec's words: a filled grid is valid when no row, no column and
no 3×3 block contains a duplicate value. -/
abbrev IsValidCompletion (c : Completion) : Prop :=
  ∀ p q : Pos, p ≠ q → sameUnit p q → c p.1 p.2 ≠ c q.1 q.2

/-- Stated from the spec's words: a filled grid preserves every nonzero prefilled
value of the original grid. -/
abbrev ExtendsGrid (g : Grid) (c : Completion) : Prop :=
  ∀ p : Pos, g p.1 p.2 ≠ 0 → (c p.1 p.2).val + 1 = g p.1 p.2

/-- The set of distinct valid completions of a partially filled grid. -/
def completionsOf (g : Grid) : Finset Completion :=
  Finset.univ.filter fun c : Completion => IsValidCompletion c ∧ ExtendsGrid g c

/-- Number of distinct valid completions of a partially filled grid. -/
def numCompletions (g : Grid) : Nat :=
  (completionsOf g).card

/-- Embedding of `find_possible_values` (`sudoku-solver.cpp` lines 4-31): start from
the set {1..9} and erase every value present in the cell's row, its column, and its
3×3 block; `std::set<int>` iterates in increasing order, so the result is the sorted
list of surviving candidates. -/
def find_possible_values (g : Grid) (p : Pos) : List Nat :=
  ((List.range FIELD_SIZE).map (· + 1)).filter fun v =>
    decide ((∀ i : Fin 9, g p.1 i ≠ v) ∧ (∀ i : Fin 9, g i p.2 ≠ v) ∧
      (∀ q : Pos, sameBlock q p → g q.1 q.2 ≠ v))

/-- Row-major enumeration of all cells, the order of the double loop in
`find_empty_position` and `is_complete`. -/
def rowMajorPositions : List Pos :=
  (List.finRange 9).flatMap fun r => (List.finRange 9).map fun c => (r, c)

/-- Embedding of `find_empty_position` (`sudoku-solver.cpp` lines 33-43): the first
cell in row-major order containing 0, `none` standing for the `{-1, -1}` sentinel. -/
def find_empty_position (g : Grid) : Option Pos :=
  rowMajorPositions.find? fun p => decide (g p.1 p.2 = 0)

/-- Embedding of `is_complete` (`sudoku-solver.cpp` lines 45-54): no cell holds 0. -/
def is_complete (g : Grid) : Bool :=
  decide (∀ p : Pos, g p.1 p.2 ≠ 0)

/-- Number of empty (zero) cells of a grid — the measure of the recursion. -/
def countZeros (g : Grid) : Nat :=
  (Finset.univ.filter fun p : Pos => g p.1 p.2 = 0).card

/-- Writing a value into one cell (`field[row][col] = value`). -/
def updateGrid (g : Grid) (p : Pos) (v : Nat) : Grid :=
  fun i j => if i = p.1 ∧ j = p.2 then v else g i j

theorem mem_find_possible_values {g : Grid} {p : Pos} {v : Nat}
    (h : v ∈ find_possible_values g p) :
    (1 ≤ v ∧ v ≤ 9) ∧ (∀ i : Fin 9, g p.1 i ≠ v) ∧ (∀ i : Fin 9, g i p.2 ≠ v) ∧
      (∀ q : Pos, sameBlock q p → g q.1 q.2 ≠ v) := by
  rw [find_possible_values, List.mem_filter] at h
  obtain ⟨hmem, hdec⟩ := h
  rw [List.mem_map] at hmem
  obtain ⟨i, hi, rfl⟩ := hmem
  rw [List.mem_range] at hi
  refine ⟨⟨by omega, by simp [FIELD_SIZE] at hi; omega⟩, ?_⟩
  exact of_decide_eq_true hdec

theorem mem_rowMajorPositions (p : Pos) : p ∈ rowMajorPositions := by
  rw [rowMajorPositions, List.mem_flatMap]
  exact ⟨p.1, List.mem_finRange _, List.mem_map.2 ⟨p.2, List.mem_finRange _, rfl⟩⟩

theorem find_empty_position_spec {g : Grid} {p : Pos}
    (h : find_empty_position g = some p) : g p.1 p.2 = 0 := by
  rw [find_empty_position] at h
  have hp := List.find?_some h
  simpa using hp

theorem find_empty_position_of_not_complete {g : Grid} (h : is_complete g = false) :
    ∃ p, find_empty_position g = some p := by
  rw [is_complete] at h
  have hx : ∃ p : Pos, g p.1 p.2 = 0 := by
    by_contra hc
    push_neg at hc
    simp only [decide_eq_false_iff_not, not_forall, not_not] at h
    obtain ⟨p, hp⟩ := h
    exact hc p hp
  obtain ⟨p, hp⟩ := hx
  have : (find_empty_position g).isSome := by
    rw [find_empty_position, List.find?_isSome]
    exact ⟨p, mem_rowMajorPositions p, by simpa using hp⟩
  exact Option.isSome_iff_exists.1 this

theorem countZeros_update_lt {g : Grid} {p : Pos} {v : Nat}
    (h0 : g p.1 p.2 = 0) (hv : v ≠ 0) :
    countZeros (updateGrid g p v) < countZeros g := by
  apply Finset.card_lt_card
  constructor
  · intro q hq
    rw [Finset.mem_filter] at hq ⊢
    refine ⟨Finset.mem_univ q, ?_⟩
    by_cases hqp : q.1 = p.1 ∧ q.2 = p.2
    · exact absurd hq.2 (by simp [updateGrid, hqp, hv])
    · have : updateGrid g p v q.1 q.2 = g q.1 q.2 := by
        simp [updateGrid, hqp]
      rw [← this]; exact hq.2
  · intro hsub
    have hp : p ∈ Finset.univ.filter fun q : Pos => g q.1 q.2 = 0 := by
      rw [Finset.mem_filter]; exact ⟨Finset.mem_univ p, h0⟩
    have := hsub hp
    rw [Finset.mem_filter] at this
    exact absurd this.2 (by simp [updateGrid, hv])

/-- Embedding of `solve_recursively` (`sudoku-solver.cpp` lines 57-73): return 1 on a
complete grid; otherwise take the first empty cell, and sum the recursive counts over
all its candidate values in increasing order (the field is passed by value, so each
branch works on its own copy). -/
def solve_recursively (g : Grid) : Nat :=
  if hc : is_complete g then 1
  else
    match hfind : find_empty_position g with
    | none => 0
    | some p =>
      ((find_possible_values g p).attach.map fun x =>
        solve_recursively (updateGrid g p x.1)).sum
termination_by countZeros g
decreasing_by
  exact countZeros_update_lt (find_empty_position_spec hfind)
    (by have := (mem_find_possible_values x.2).1; omega)

/-- Embedding of `sudoku_solve` (`sudoku-solver.cpp` lines 75-84), count component:
a complete initial field yields 1 immediately, otherwise the recursive count. -/
def sudoku_solve_count (g : Grid) : Nat :=
  if is_complete g then 1 else solve_recursively g

/-! ## Sudoku: embedding of `field-checker.cpp` (C8) -/

/-- Embedding of `is_unique` (`field-checker.cpp` lines 6-9): `std::unique` on the
unsorted vector removes only consecutive duplicates, so the function returns true
iff no two ADJACENT entries of the list are equal. -/
def is_unique : List Nat → Bool
  | [] => true
  | [_] => true
  | a :: b :: rest => (a != b) && is_unique (b :: rest)

/-- Total cell access for the `Nat`-indexed loops of the checker; all loop indices
stay below 9, so the out-of-range fallback is never taken. -/
def gridCell (g : Grid) (i j : Nat) : Nat :=
  if hi : i < 9 then if hj : j < 9 then g ⟨i, hi⟩ ⟨j, hj⟩ else 0 else 0

/-- Row `r` of the grid as the checker's `solution[row]`. -/
def rowList (g : Grid) (r : Nat) : List Nat :=
  (List.range 9).map fun j => gridCell g r j

/-- Column `c` of the grid as the checker builds it (`field-checker.cpp` lines 36-39). -/
def colList (g : Grid) (c : Nat) : List Nat :=
  (List.range 9).map fun i => gridCell g i c

/-- The 3×3 block with upper-left corner `(r, c)` in row-major order
(`field-checker.cpp` lines 49-54). -/
def blockListAt (g : Grid) (r c : Nat) : List Nat :=
  (List.range 3).flatMap fun i => (List.range 3).map fun j => gridCell g (r + i) (c + j)

/-- Embedding of `check_field` (`field-checker.cpp` lines 11-62).  The block loops
mirror the source bounds: rows run over `row <= FIELD_SIZE - 3` step 3 ({0, 3, 6}),
but columns over `col < FIELD_SIZE - 3` step 3 ({0, 3} only) — the rightmost column
of blocks is never visited. -/
def check_field (init_field solution : Grid) : Bool :=
  (decide (∀ p : Pos, 0 < solution p.1 p.2 ∧ solution p.1 p.2 ≤ FIELD_SIZE)) &&
  (decide (∀ p : Pos, init_field p.1 p.2 ≠ 0 → solution p.1 p.2 = init_field p.1 p.2)) &&
  ((List.range 9).all fun row => is_unique (rowList solution row)) &&
  ((List.range 9).all fun col => is_unique (colList solution col)) &&
  (([0, 3, 6] : List Nat).all fun row =>
    ([0, 3] : List Nat).all fun col => is_unique (blockListAt solution row col))

/-- Stated from the claim's words: the checker should accept exactly when every
prefilled value is preserved, every cell is in 1..9, and no row, column or 3×3 block
contains a duplicate (adjacent or not, all nine blocks included). -/
abbrev SpecCheckField (init_field solution : Grid) : Prop :=
  (∀ p : Pos, init_field p.1 p.2 ≠ 0 → solution p.1 p.2 = init_field p.1 p.2) ∧
  (∀ p : Pos, 1 ≤ solution p.1 p.2 ∧ solution p.1 p.2 ≤ 9) ∧
  (∀ p q : Pos, p ≠ q → sameUnit p q → solution p.1 p.2 ≠ solution q.1 q.2)

/-- The all-zero grid (every cell empty). -/
def zeroGrid : Grid := fun _ _ => 0

/-- Builds a grid from a row-major list of rows. -/
def gridOfRows (rows : List (List Nat)) : Grid :=
  fun i j => (rows.getD i.val []).getD j.val 0

/-- A filled grid that is NOT a valid sudoku solution: it is the classic shifted
solution except that the cell at row 1, column 7 was changed from 2 to 7, creating a
duplicate 7 in row 1 (columns 3 and 7), in column 7 (rows 1 and 8), and in the
top-right block — all of them non-adjacent or inside the unchecked block column. -/
def c8Solution : Grid := gridOfRows
  [[1, 2, 3, 4, 5, 6, 7, 8, 9],
   [4, 5, 6, 7, 8, 9, 1, 7, 3],
   [7, 8, 9, 1, 2, 3, 4, 5, 6],
   [2, 3, 4, 5, 6, 7, 8, 9, 1],
   [5, 6, 7, 8, 9, 1, 2, 3, 4],
   [8, 9, 1, 2, 3, 4, 5, 6, 7],
   [3, 4, 5, 6, 7, 8, 9, 1, 2],
   [6, 7, 8, 9, 1, 2, 3, 4, 5],
   [9, 1, 2, 3, 4, 5, 6, 7, 8]]

/-- C8: evaluation of `check_field` at an original grid with no prefilled cells and a
candidate grid containing a duplicate 7 in row 1.  The code accepts the grid (its
uniqueness test only sees adjacent duplicates and it never checks the rightmost
column of blocks), while the claimed specification rejects it. -/
theorem c8_check_field_eval :
    check_field zeroGrid c8Solution = true ∧ ¬ SpecCheckField zeroGrid c8Solution := by
  constructor
  · decide
  · intro h
    have hdup := h.2.2 (1, 3) (1, 7) (by decide) (Or.inl rfl)
    exact hdup (by decide)

/-! ## Sudoku: termination of the solver (C10) -/

/-- Fuel-bounded unrolling of `solve_recursively`: one unit of fuel per recursive
call, 0 on fuel exhaustion.  Fuel `countZeros g + 1` always suffices, which is the
termination argument of the source recursion. -/
def solveFuelN : Nat → Grid → Nat
  | 0, _ => 0
  | fuel + 1, g =>
    if is_complete g then 1
    else
      match find_empty_position g with
      | none => 0
      | some p =>
        ((find_possible_values g p).map fun v => solveFuelN fuel (updateGrid g p v)).sum

theorem solve_recursively_complete {g : Grid} (hc : is_complete g = true) :
    solve_recursively g = 1 := by
  rw [solve_recursively]
  rw [dif_pos hc]

theorem solve_recursively_of_some {g : Grid} {p : Pos} (hc : is_complete g = false)
    (h : find_empty_position g = some p) :
    solve_recursively g =
      ((find_possible_values g p).attach.map fun x =>
        solve_recursively (updateGrid g p x.1)).sum := by
  rw [solve_recursively]
  rw [dif_neg (by simp [hc])]
  split
  · rename_i heq
    rw [h] at heq
    cases heq
  · rename_i p' heq
    rw [h] at heq
    injection heq with e
    subst e
    rfl

theorem countZeros_le_81 (g : Grid) : countZeros g ≤ 81 := by
  have h := Finset.card_filter_le (Finset.univ : Finset Pos) fun p => g p.1 p.2 = 0
  simpa using h

theorem solveFuelN_eq_solve_recursively :
    ∀ (fuel : Nat) (g : Grid), countZeros g < fuel → solveFuelN fuel g = solve_recursively g := by
  intro fuel
  induction fuel with
  | zero => intro g h; omega
  | succ fuel ih =>
    intro g h
    cases hcb : is_complete g with
    | true =>
      rw [solve_recursively_complete hcb]
      simp [solveFuelN, hcb]
    | false =>
      obtain ⟨p, hp⟩ := find_empty_position_of_not_complete hcb
      rw [solve_recursively_of_some hcb hp]
      rw [solveFuelN]
      simp only [hcb, Bool.false_eq_true, if_false, hp]
      have hattach :
          (find_possible_values g p).attach.map
              (fun x => solve_recursively (updateGrid g p x.1)) =
            (find_possible_values g p).map fun v => solve_recursively (updateGrid g p v) := by
        simp
      rw [hattach]
      have hzero : g p.1 p.2 = 0 := find_empty_position_spec hp
      congr 1
      apply List.map_congr_left
      intro v hv
      have hlt : countZeros (updateGrid g p v) < countZeros g :=
        countZeros_update_lt hzero (by have := (mem_find_possible_values hv).1; omega)
      exact ih (updateGrid g p v) (by omega)

/-- C10: the recursion of `solve_recursively` terminates — every recursive call
writes a nonzero candidate into an empty cell, so the number of empty cells strictly
decreases; fuel equal to the number of empty cells (at most 81) plus one suffices to
fully unroll the recursion. -/
theorem c10_termination :
    (∀ (g : Grid) (p : Pos) (v : Nat), g p.1 p.2 = 0 → v ∈ find_possible_values g p →
      countZeros (updateGrid g p v) < countZeros g) ∧
    (∀ (g : Grid) (fuel : Nat), countZeros g < fuel → solveFuelN fuel g = solve_recursively g) ∧
    (∀ g : Grid, countZeros g ≤ 81) := by
  refine ⟨?_, ?_, countZeros_le_81⟩
  · intro g p v h0 hv
    exact countZeros_update_lt h0 (by have := (mem_find_possible_values hv).1; omega)
  · intro g fuel h
    exact solveFuelN_eq_solve_recursively fuel g h

/-- Witness for C10 at concrete inputs: the all-zero grid for the measure facts and
a one-step unrolling on a complete grid. -/
theorem c10_termination_witness :
    (zeroGrid (0, 0).1 (0, 0).2 = 0 ∧ 1 ∈ find_possible_values zeroGrid (0, 0) ∧
      countZeros (updateGrid zeroGrid (0, 0) 1) < countZeros zeroGrid) ∧
    (countZeros c8Solution < 1 ∧ solveFuelN 1 c8Solution = solve_recursively c8Solution) := by
  refine ⟨⟨rfl, by decide, c10_termination.1 zeroGrid (0, 0) 1 rfl (by decide)⟩,
    by decide, c10_termination.2.1 c8Solution 1 (by decide)⟩


/-! ## Sudoku: correctness of the solution count (C9) -/

theorem mem_completionsOf {g : Grid} {c : Completion} :
    c ∈ completionsOf g ↔ IsValidCompletion c ∧ ExtendsGrid g c := by
  rw [completionsOf, Finset.mem_filter]
  simp

/-- Stated from the claim's words: every nonzero prefilled value lies in 1..9. -/
abbrev GridInRange (g : Grid) : Prop :=
  ∀ p : Pos, g p.1 p.2 = 0 ∨ (1 ≤ g p.1 p.2 ∧ g p.1 p.2 ≤ 9)

/-- Stated from the claim's words: no two distinct prefilled cells of the same row,
column or 3×3 block hold the same value. -/
abbrev GridNoConflicts (g : Grid) : Prop :=
  ∀ p q : Pos, p ≠ q → sameUnit p q → g p.1 p.2 ≠ 0 → g p.1 p.2 ≠ g q.1 q.2

theorem is_complete_spec {g : Grid} (h : is_complete g = true) :
    ∀ p : Pos, g p.1 p.2 ≠ 0 := by
  rw [is_complete] at h
  exact of_decide_eq_true h

theorem updateGrid_apply_self (g : Grid) (p : Pos) (v : Nat) :
    updateGrid g p v p.1 p.2 = v := by
  simp [updateGrid]

theorem updateGrid_apply_ne {g : Grid} {p : Pos} {v : Nat} {q : Pos} (h : q ≠ p) :
    updateGrid g p v q.1 q.2 = g q.1 q.2 := by
  rw [updateGrid, if_neg]
  rintro ⟨h1, h2⟩
  exact h (Prod.ext h1 h2)

theorem find_possible_values_nodup (g : Grid) (p : Pos) :
    (find_possible_values g p).Nodup := by
  apply List.Nodup.filter
  exact (List.nodup_range _).map fun a b hab => by omega

/-- On a complete, in-range, conflict-free grid there is exactly one valid completion:
the grid itself. -/
theorem numCompletions_complete {g : Grid} (hr : GridInRange g) (hc : GridNoConflicts g)
    (hfull : ∀ p : Pos, g p.1 p.2 ≠ 0) : numCompletions g = 1 := by
  have hrange : ∀ p : Pos, 1 ≤ g p.1 p.2 ∧ g p.1 p.2 ≤ 9 :=
    fun p => (hr p).resolve_left (hfull p)
  rw [numCompletions, Finset.card_eq_one]
  refine ⟨fun i j => ⟨g i j - 1, by
    have hb : 1 ≤ g i j ∧ g i j ≤ 9 := hrange (i, j)
    omega⟩, ?_⟩
  rw [Finset.eq_singleton_iff_unique_mem]
  constructor
  · rw [mem_completionsOf]
    constructor
    · intro p q hne hunit heq
      have h1 := hrange p
      have h2 := hrange q
      have hval : g p.1 p.2 - 1 = g q.1 q.2 - 1 := congrArg Fin.val heq
      exact hc p q hne hunit (hfull p) (by omega)
    · intro p _
      have hb : 1 ≤ g p.1 p.2 ∧ g p.1 p.2 ≤ 9 := hrange p
      show g p.1 p.2 - 1 + 1 = g p.1 p.2
      omega
  · intro c hcmem
    rw [mem_completionsOf] at hcmem
    obtain ⟨_, hext⟩ := hcmem
    funext i j
    apply Fin.ext
    have hb : (c i j).val + 1 = g i j := hext (i, j) (hfull (i, j))
    show (c i j).val = g i j - 1
    omega

/-- The digit a valid completion puts into an empty cell is always one of the
candidates `find_possible_values` enumerates for that cell. -/
theorem completion_value_mem {g : Grid} {p : Pos} (h0 : g p.1 p.2 = 0) {c : Completion}
    (hvalid : IsValidCompletion c) (hext : ExtendsGrid g c) :
    ((c p.1 p.2).val + 1) ∈ find_possible_values g p := by
  rw [find_possible_values, List.mem_filter]
  constructor
  · rw [List.mem_map]
    refine ⟨(c p.1 p.2).val, ?_, rfl⟩
    rw [List.mem_range]
    exact (c p.1 p.2).isLt
  · apply decide_eq_true
    have key : ∀ q : Pos, sameUnit q p → g q.1 q.2 ≠ (c p.1 p.2).val + 1 := by
      intro q hunit heq
      have hq0 : g q.1 q.2 ≠ 0 := by omega
      have hqp : q ≠ p := by
        intro he
        rw [he] at hq0
        exact hq0 h0
      have hcq := hext q hq0
      have hcc : c q.1 q.2 = c p.1 p.2 := Fin.ext (by omega)
      exact hvalid q p hqp hunit hcc
    refine ⟨?_, ?_, ?_⟩
    · intro i
      exact key (p.1, i) (Or.inl rfl)
    · intro i
      exact key (i, p.2) (Or.inr (Or.inl rfl))
    · intro q hb
      exact key q (Or.inr (Or.inr hb))

/-- The valid completions assigning candidate `v` to the empty cell `p` are exactly
the valid completions of the grid with `v` written into `p`. -/
theorem completions_fiber_eq {g : Grid} {p : Pos} (h0 : g p.1 p.2 = 0) {v : Nat}
    (hv : v ∈ find_possible_values g p) :
    ((completionsOf g).filter fun c => (c p.1 p.2).val + 1 = v) =
      completionsOf (updateGrid g p v) := by
  obtain ⟨⟨hv1, _⟩, _, _, _⟩ := mem_find_possible_values hv
  ext c
  rw [Finset.mem_filter, mem_completionsOf, mem_completionsOf]
  constructor
  · rintro ⟨⟨hvalid, hext⟩, hval⟩
    refine ⟨hvalid, fun q hq => ?_⟩
    by_cases hqp : q = p
    · subst hqp
      rw [updateGrid_apply_self]
      exact hval
    · rw [updateGrid_apply_ne hqp] at hq ⊢
      exact hext q hq
  · rintro ⟨hvalid, hext⟩
    have hvalp : (c p.1 p.2).val + 1 = v := by
      have hsf := hext p (by rw [updateGrid_apply_self]; omega)
      rwa [updateGrid_apply_self] at hsf
    refine ⟨⟨hvalid, fun q hq => ?_⟩, hvalp⟩
    have hqp : q ≠ p := by
      intro he
      rw [he] at hq
      exact hq h0
    have hq2 := hext q (by rwa [updateGrid_apply_ne hqp])
    rwa [updateGrid_apply_ne hqp] at hq2

/-- Counting valid completions of a grid with an empty cell `p` splits as the sum,
over the candidates for `p`, of the completion counts after writing the candidate. -/
theorem numCompletions_partition {g : Grid} {p : Pos} (h0 : g p.1 p.2 = 0) :
    numCompletions g =
      ((find_possible_values g p).map fun v => numCompletions (updateGrid g p v)).sum := by
  rw [numCompletions]
  rw [Finset.card_eq_sum_card_fiberwise
    (f := fun c : Completion => (c p.1 p.2).val + 1)
    (t := (find_possible_values g p).toFinset) ?hmaps]
  case hmaps =>
    intro c hcmem
    rw [mem_completionsOf] at hcmem
    rw [List.mem_toFinset]
    exact completion_value_mem h0 hcmem.1 hcmem.2
  rw [← List.sum_toFinset _ (find_possible_values_nodup g p)]
  apply Finset.sum_congr rfl
  intro v hv
  rw [numCompletions]
  exact congrArg Finset.card (completions_fiber_eq h0 (List.mem_toFinset.1 hv))

/-- Writing one of the cell's candidates into an empty cell keeps the grid in range. -/
theorem updateGrid_inRange {g : Grid} {p : Pos} {v : Nat} (hr : GridInRange g)
    (hv : v ∈ find_possible_values g p) : GridInRange (updateGrid g p v) := by
  obtain ⟨⟨hv1, hv9⟩, -, -, -⟩ := mem_find_possible_values hv
  intro q
  by_cases hqp : q = p
  · subst hqp
    rw [updateGrid_apply_self]
    exact Or.inr ⟨hv1, hv9⟩
  · rw [updateGrid_apply_ne hqp]
    exact hr q

/-- Writing one of the cell's candidates into an empty cell creates no conflict. -/
theorem updateGrid_noConflicts {g : Grid} {p : Pos} {v : Nat} (hc : GridNoConflicts g)
    (h0 : g p.1 p.2 = 0) (hv : v ∈ find_possible_values g p) :
    GridNoConflicts (updateGrid g p v) := by
  obtain ⟨⟨hv1, -⟩, hrow, hcol, hblock⟩ := mem_find_possible_values hv
  have hnotin : ∀ q : Pos, q ≠ p → sameUnit q p → g q.1 q.2 ≠ v := by
    intro q _ hunit
    rcases hunit with h | h | h
    · have hq : q = (p.1, q.2) := Prod.ext h rfl
      rw [hq]
      exact hrow q.2
    · have hq : q = (q.1, p.2) := Prod.ext rfl h
      rw [hq]
      exact hcol q.1
    · exact hblock q h
  intro a b hne hunit ha
  by_cases hap : a = p
  · subst hap
    rw [updateGrid_apply_self]
    have hbp : b ≠ a := fun he => hne he.symm
    rw [updateGrid_apply_ne hbp]
    intro heq
    have hsym : sameUnit b a := by
      rcases hunit with h | h | h
      · exact Or.inl h.symm
      · exact Or.inr (Or.inl h.symm)
      · exact Or.inr (Or.inr ⟨h.1.symm, h.2.symm⟩)
    exact hnotin b hbp hsym heq.symm
  · rw [updateGrid_apply_ne hap]
    by_cases hbp : b = p
    · subst hbp
      rw [updateGrid_apply_self]
      rw [updateGrid_apply_ne hap] at ha
      exact hnotin a hap hunit
    · rw [updateGrid_apply_ne hbp]
      rw [updateGrid_apply_ne hap] at ha
      exact hc a b hne hunit ha

/-- Core counting correctness: on an in-range, conflict-free grid, the backtracking
recursion returns exactly the number of valid completions. -/
theorem solve_recursively_counts :
    ∀ (n : Nat) (g : Grid), countZeros g = n → GridInRange g → GridNoConflicts g →
      solve_recursively g = numCompletions g := by
  intro n
  induction n using Nat.strong_induction_on with
  | _ n ih =>
    intro g hn hr hc
    cases hcb : is_complete g with
    | true =>
      rw [solve_recursively_complete hcb, numCompletions_complete hr hc (is_complete_spec hcb)]
    | false =>
      obtain ⟨p, hp⟩ := find_empty_position_of_not_complete hcb
      have h0 := find_empty_position_spec hp
      rw [solve_recursively_of_some hcb hp, numCompletions_partition h0]
      have hattach :
          (find_possible_values g p).attach.map
              (fun x => solve_recursively (updateGrid g p x.1)) =
            (find_possible_values g p).map fun v => solve_recursively (updateGrid g p v) := by
        simp
      rw [hattach]
      refine congrArg List.sum ?_
      apply List.map_congr_left
      intro v hv
      have hv1 : 1 ≤ v := (mem_find_possible_values hv).1.1
      have hlt : countZeros (updateGrid g p v) < countZeros g :=
        countZeros_update_lt h0 (by omega)
      exact ih (countZeros (updateGrid g p v)) (by omega) _ rfl
        (updateGrid_inRange hr hv) (updateGrid_noConflicts hc h0 hv)

/-- C9 (amended): for every input grid whose prefilled cells are in range 1..9 and
pairwise conflict-free within each row, column and 3×3 block, `sudoku_solve` returns
as its count exactly the number of distinct valid completions of the grid; in
particular a (conflict-free) grid with no valid completion yields count 0. -/
theorem c9_sudoku_count (g : Grid) (hr : GridInRange g) (hc : GridNoConflicts g) :
    sudoku_solve_count g = numCompletions g := by
  rw [sudoku_solve_count]
  cases hcb : is_complete g with
  | true =>
    rw [if_pos rfl, numCompletions_complete hr hc (is_complete_spec hcb)]
  | false =>
    rw [if_neg (by simp)]
    exact solve_recursively_counts (countZeros g) g rfl hr hc

/-- Witness for C9 at the all-empty grid. -/
theorem c9_sudoku_count_witness :
    GridInRange zeroGrid ∧ GridNoConflicts zeroGrid ∧
      sudoku_solve_count zeroGrid = numCompletions zeroGrid :=
  ⟨fun _ => Or.inl rfl, fun _ _ _ _ h0 => (h0 rfl).elim,
    c9_sudoku_count zeroGrid (fun _ => Or.inl rfl) (fun _ _ _ _ h0 => (h0 rfl).elim)⟩

/-- The grid every cell of which is prefilled with 1 — complete but invalid. -/
def allOnesGrid : Grid := fun _ _ => 1

/-- C9 as stated fails on the code: the all-ones grid is complete, so `sudoku_solve`
returns count 1, yet it has zero valid completions (row 0 repeats the value 1). -/
theorem c9_counterexample :
    sudoku_solve_count allOnesGrid ≠ numCompletions allOnesGrid := by
  have h1 : sudoku_solve_count allOnesGrid = 1 := by
    rw [sudoku_solve_count, if_pos (by decide)]
  have h2 : numCompletions allOnesGrid = 0 := by
    rw [numCompletions, Finset.card_eq_zero, Finset.eq_empty_iff_forall_not_mem]
    intro c hmem
    rw [mem_completionsOf] at hmem
    obtain ⟨hvalid, hext⟩ := hmem
    have e1 : (c 0 0).val + 1 = 1 := hext (0, 0) (by simp [allOnesGrid])
    have e2 : (c 0 1).val + 1 = 1 := hext (0, 1) (by simp [allOnesGrid])
    have heq : c 0 0 = c 0 1 := Fin.ext (by omega)
    exact hvalid (0, 0) (0, 1) (by decide) (Or.inl rfl) heq
  omega
